import Mathlib

/-!
Verification of the CAN/Ethernet gateway core (shallow embedding).

Bytes are modelled as `List Nat` (each element a byte value), machine
integers as `Nat`/`Int` with explicit `% 2^32` where the source relies on
32-bit overflow (SHA-256 word arithmetic), timestamps as `Int`
(milliseconds), and Python's float division in statistics as `ℚ`.
Stateful classes become explicit state records with state-passing
functions; wall-clock reads (`now_ms`) and unique-id minting (`gen_id`)
become explicit parameters of the embedded functions.
-/

namespace Gateway

/-- Byte width modulus for 32-bit words used by SHA-256. -/
def w32 : Nat := 2 ^ 32

/-- UTF-8 bytes of a string, as Python's `str.encode()`. -/
def strBytes (s : String) : List Nat :=
  s.toUTF8.toList.map (fun b => b.toNat)

/-! ## SHA-256 (FIPS 180-4), backing `hashlib.sha256` / `hmac` -/

/-- The sixty-four SHA-256 round constants. -/
def K256 : List Nat :=
  [1116352408, 1899447441, 3049323471, 3921009573, 961987163, 1508970993,
   2453635748, 2870763221, 3624381080, 310598401, 607225278, 1426881987,
   1925078388, 2162078206, 2614888103, 3248222580, 3835390401, 4022224774,
   264347078, 604807628, 770255983, 1249150122, 1555081692, 1996064986,
   2554220882, 2821834349, 2952996808, 3210313671, 3336571891, 3584528711,
   113926993, 338241895, 666307205, 773529912, 1294757372, 1396182291,
   1695183700, 1986661051, 2177026350, 2456956037, 2730485921, 2820302411,
   3259730800, 3345764771, 3516065817, 3600352804, 4094571909, 275423344,
   430227734, 506948616, 659060556, 883997877, 958139571, 1322822218,
   1537002063, 1747873779, 1955562222, 2024104815, 2227730452, 2361852424,
   2428436474, 2756734187, 3204031479, 3329325298]

/-- SHA-256 initial hash state. -/
def H256 : List Nat :=
  [1779033703, 3144134277, 1013904242, 2773480762, 1359893119, 2600822924,
   528734635, 1541459225]

/-- Right rotation of a 32-bit word. -/
def rotr (n w : Nat) : Nat :=
  ((w >>> n) ||| (w <<< (32 - n))) % w32

/-- 32-bit bitwise complement. -/
def not32 (w : Nat) : Nat := 0xffffffff ^^^ (w % w32)

/-- Message-schedule sigma-0. -/
def ssig0 (w : Nat) : Nat := rotr 7 w ^^^ rotr 18 w ^^^ (w >>> 3)

/-- Message-schedule sigma-1. -/
def ssig1 (w : Nat) : Nat := rotr 17 w ^^^ rotr 19 w ^^^ (w >>> 10)

/-- Compression Sigma-0. -/
def bsig0 (w : Nat) : Nat := rotr 2 w ^^^ rotr 13 w ^^^ rotr 22 w

/-- Compression Sigma-1. -/
def bsig1 (w : Nat) : Nat := rotr 6 w ^^^ rotr 11 w ^^^ rotr 25 w

/-- Big-endian 4-byte serialization of a 32-bit word. -/
def word32ToBytes (w : Nat) : List Nat :=
  [w / 2 ^ 24 % 256, w / 2 ^ 16 % 256, w / 2 ^ 8 % 256, w % 256]

/-- Big-endian 8-byte serialization of the 64-bit message bit length. -/
def len64ToBytes (n : Nat) : List Nat :=
  [n / 2 ^ 56 % 256, n / 2 ^ 48 % 256, n / 2 ^ 40 % 256, n / 2 ^ 32 % 256,
   n / 2 ^ 24 % 256, n / 2 ^ 16 % 256, n / 2 ^ 8 % 256, n % 256]

/-- SHA-256 padding: append 0x80, zero-fill to 56 mod 64, then the bit length. -/
def padMsg (msg : List Nat) : List Nat :=
  let L := msg.length
  msg ++ [0x80] ++ List.replicate ((120 - (L + 1) % 64) % 64) 0 ++ len64ToBytes (8 * L)

/-- Split a byte list into 64-byte chunks. -/
def chunks64 : List Nat → List (List Nat)
  | [] => []
  | b :: rest => (b :: rest).take 64 :: chunks64 ((b :: rest).drop 64)
termination_by l => l.length
decreasing_by simp [List.length_drop]; omega

/-- Assemble big-endian 32-bit words from bytes. -/
def bytesToWords : List Nat → List Nat
  | b0 :: b1 :: b2 :: b3 :: rest =>
      (b0 * 2 ^ 24 + b1 * 2 ^ 16 + b2 * 2 ^ 8 + b3) :: bytesToWords rest
  | _ => []

/-- One message-schedule extension step: append w[t-16]+σ0(w[t-15])+w[t-7]+σ1(w[t-2]). -/
def scheduleStep (ws : List Nat) : List Nat :=
  ws ++ [(ws.getD (ws.length - 16) 0 + ssig0 (ws.getD (ws.length - 15) 0) +
          ws.getD (ws.length - 7) 0 + ssig1 (ws.getD (ws.length - 2) 0)) % w32]

/-- The working-variable record for one compression round. -/
structure Sha8 where
  a : Nat
  b : Nat
  c : Nat
  d : Nat
  e : Nat
  f : Nat
  g : Nat
  h : Nat

/-- One SHA-256 compression round with round constant plus scheduled word `kw`. -/
def round256 (st : Sha8) (kw : Nat) : Sha8 :=
  let t1 := (st.h + bsig1 st.e + ((st.e &&& st.f) ^^^ (not32 st.e &&& st.g)) + kw) % w32
  let t2 := (bsig0 st.a + ((st.a &&& st.b) ^^^ (st.a &&& st.c) ^^^ (st.b &&& st.c))) % w32
  ⟨(t1 + t2) % w32, st.a, st.b, st.c, (st.d + t1) % w32, st.e, st.f, st.g⟩

/-- Process one 64-byte chunk: schedule, 64 rounds, add back into the hash state. -/
def compress (hs : List Nat) (chunk : List Nat) : List Nat :=
  let ws := scheduleStep^[48] (bytesToWords chunk)
  let init : Sha8 := ⟨hs.getD 0 0, hs.getD 1 0, hs.getD 2 0, hs.getD 3 0,
                      hs.getD 4 0, hs.getD 5 0, hs.getD 6 0, hs.getD 7 0⟩
  let st := (K256.zipWith (fun k w => (k + w) % w32) ws).foldl round256 init
  [(hs.getD 0 0 + st.a) % w32, (hs.getD 1 0 + st.b) % w32,
   (hs.getD 2 0 + st.c) % w32, (hs.getD 3 0 + st.d) % w32,
   (hs.getD 4 0 + st.e) % w32, (hs.getD 5 0 + st.f) % w32,
   (hs.getD 6 0 + st.g) % w32, (hs.getD 7 0 + st.h) % w32]

/-- Full SHA-256 digest (32 bytes) of a byte string. -/
def sha256 (msg : List Nat) : List Nat :=
  (((chunks64 (padMsg msg)).foldl compress H256).map word32ToBytes).flatten

/-- Lowercase hex encoding of one nibble. -/
def hexChar (n : Nat) : Char :=
  Char.ofNat (if n < 10 then 48 + n else 87 + n)

/-- Lowercase hex encoding of a byte string, as Python's `.hexdigest()`. -/
def hexdigest (bs : List Nat) : String :=
  String.mk (bs.flatMap (fun b => [hexChar (b / 16 % 16), hexChar (b % 16)]))

/-! ## Authentication codec (`src/security.py`) -/

/-- HMAC-SHA-256 (RFC 2104) with 64-byte block size, as `hmac.new(key, msg, sha256)`. -/
def hmacSha256 (key msg : List Nat) : List Nat :=
  let k0 := if 64 < key.length then sha256 key else key
  let kp := k0 ++ List.replicate (64 - k0.length) 0
  sha256 ((kp.map (fun b => b ^^^ 0x5c)) ++ sha256 ((kp.map (fun b => b ^^^ 0x36)) ++ msg))

/-- `os.environ.get("HMAC_SECRET", "gateway-secret-2025").encode()`: the module-level
secret, read from the ambient environment with a hard-coded default. -/
def secretFromEnv (env : Option String) : List Nat :=
  strBytes (env.getD "gateway-secret-2025")

/-- The process-wide `SECRET` in the default environment (no `HMAC_SECRET` set). -/
def SECRET : List Nat := secretFromEnv none

/-- `sign` under an explicit secret: truncated (8-byte) HMAC-SHA-256. -/
def signWith (secret data : List Nat) : List Nat :=
  (hmacSha256 secret data).take 8

/-- `sign(data)`: `hmac.new(SECRET, data, hashlib.sha256).digest()[:8]`. -/
def sign (data : List Nat) : List Nat := signWith SECRET data

/-- `verify(data, tag)`: `hmac.compare_digest(sign(data), tag)` (boolean equality). -/
def verify (data tag : List Nat) : Bool := sign data == tag

/-- `attach_auth(payload)`: `payload + sign(payload)`. -/
def attach_auth (payload : List Nat) : List Nat := payload ++ sign payload

/-- `strip_and_verify(payload)`: return `(payload, False)` when shorter than the tag,
else split the trailing 8 bytes and verify. -/
def strip_and_verify (payload : List Nat) : List Nat × Bool :=
  if payload.length < 8 then (payload, false)
  else (payload.take (payload.length - 8),
        verify (payload.take (payload.length - 8)) (payload.drop (payload.length - 8)))

/-! ## Buses (`src/can_bus.py`, `src/ethernet_bus.py`) -/

/-- `CANFrame` dataclass (defaults: `src="node"`, `msg_id=""`). -/
structure CANFrame where
  ts_ms : Int
  can_id : Nat
  dlc : Nat
  data : List Nat
  src : String
  msg_id : String
deriving DecidableEq

/-- `EthernetPacket` dataclass (defaults: `msg_id=""`, `priority=0`). -/
structure EthernetPacket where
  ts_ms : Int
  src : String
  dst : String
  payload : List Nat
  msg_id : String
  priority : Nat
deriving DecidableEq

/-- `HighPerformanceCANBus` state: the FIFO queue plus the two counters.
The queue front is the list head. -/
structure HighPerformanceCANBus where
  q : List CANFrame
  messages_sent : Nat
  messages_received : Nat
deriving DecidableEq

namespace HighPerformanceCANBus

/-- `send(frame)`: increment `messages_sent`, then enqueue. -/
def send (s : HighPerformanceCANBus) (frame : CANFrame) : HighPerformanceCANBus :=
  { s with messages_sent := s.messages_sent + 1, q := s.q ++ [frame] }

/-- `send_batch(frames)`: add the batch size to `messages_sent` once,
then enqueue each frame in order. -/
def send_batch (s : HighPerformanceCANBus) (frames : List CANFrame) : HighPerformanceCANBus :=
  { s with messages_sent := s.messages_sent + frames.length,
           q := frames.foldl (fun acc frame => acc ++ [frame]) s.q }

/-- `recv(timeout)`: dequeue the front frame and count it, or time out on empty. -/
def recv (s : HighPerformanceCANBus) : Option CANFrame × HighPerformanceCANBus :=
  match s.q with
  | [] => (none, s)
  | f :: rest => (some f, { s with q := rest, messages_received := s.messages_received + 1 })

end HighPerformanceCANBus

/-- `HighPerformanceEthernetBus` state, mirror of the CAN bus. -/
structure HighPerformanceEthernetBus where
  q : List EthernetPacket
  packets_sent : Nat
  packets_received : Nat
deriving DecidableEq

namespace HighPerformanceEthernetBus

/-- `send(pkt)`: increment `packets_sent`, then enqueue. -/
def send (s : HighPerformanceEthernetBus) (pkt : EthernetPacket) : HighPerformanceEthernetBus :=
  { s with packets_sent := s.packets_sent + 1, q := s.q ++ [pkt] }

/-- `send_batch(packets)`: add the batch size to `packets_sent` once,
then enqueue each packet in order. -/
def send_batch (s : HighPerformanceEthernetBus) (packets : List EthernetPacket) :
    HighPerformanceEthernetBus :=
  { s with packets_sent := s.packets_sent + packets.length,
           q := packets.foldl (fun acc pkt => acc ++ [pkt]) s.q }

/-- `recv(timeout)`: dequeue the front packet and count it, or time out on empty. -/
def recv (s : HighPerformanceEthernetBus) : Option EthernetPacket × HighPerformanceEthernetBus :=
  match s.q with
  | [] => (none, s)
  | p :: rest => (some p, { s with q := rest, packets_received := s.packets_received + 1 })

end HighPerformanceEthernetBus

/-! ## Protocol translation (`src/gateway.py`)

The translator's wall-clock instrumentation (`time.sleep` delay model,
latency log, translation counter) is timing-only and not part of the
translated message values; the embedding carries the construction-time
configuration (the two address maps) and passes the `now_ms()` reading and
the `gen_id` fresh identifier as explicit arguments. -/

/-- `ProtocolTranslator` configuration: the id→address map and its reverse. -/
structure ProtocolTranslator where
  can_to_eth_map : List (Nat × String)
  eth_to_can_map : List (String × Nat)

/-- The default maps from `ProtocolTranslator.__init__`. -/
def defaultTranslator : ProtocolTranslator :=
  ⟨[(0x100, "192.168.0.10"), (0x101, "192.168.0.11"),
    (0x200, "192.168.0.20"), (0x300, "192.168.0.30")],
   [("192.168.0.10", 0x100), ("192.168.0.11", 0x101),
    ("192.168.0.20", 0x200), ("192.168.0.30", 0x300)]⟩

/-- Python string truthiness for `x or fallback`: `None` and `""` select the fallback. -/
def pyOr (d : Option String) (fb : String) : String :=
  match d with
  | some s => if s = "" then fb else s
  | none => fb

/-- `can_to_eth(frame, dst)`: destination is `dst or map.get(can_id, "192.168.0.99")`,
payload carried unchanged, `msg_id` is `frame.msg_id or gen_id("eth")`. -/
def can_to_eth (tr : ProtocolTranslator) (frame : CANFrame) (dst : Option String)
    (now : Int) (fresh : String) : EthernetPacket :=
  let ip := pyOr dst ((tr.can_to_eth_map.lookup frame.can_id).getD "192.168.0.99")
  ⟨now, "gateway", ip, frame.data,
   if frame.msg_id = "" then fresh else frame.msg_id, 0⟩

/-- `eth_to_can(pkt)`: id is `map.get(pkt.src, 0x200)`, `dlc = min(len(payload), 8)`,
data truncated to the first 8 bytes, `msg_id` is `pkt.msg_id or gen_id("can")`. -/
def eth_to_can (tr : ProtocolTranslator) (pkt : EthernetPacket)
    (now : Int) (fresh : String) : CANFrame :=
  ⟨now, (tr.eth_to_can_map.lookup pkt.src).getD 0x200,
   min pkt.payload.length 8, pkt.payload.take 8, "gateway",
   if pkt.msg_id = "" then fresh else pkt.msg_id⟩

/-! ## Intrusion detection (`src/security.py`, class `EnhancedIDS`) -/

/-- `_hash_message(data, identifier)`: `sha256(data + identifier.encode()).hexdigest()`. -/
def hash_message (data : List Nat) (identifier : String) : String :=
  hexdigest (sha256 (data ++ strBytes identifier))

/-- Keys of the `timestamps` defaultdict: CAN ids (ints) and Ethernet
sources (strings) never collide in the one Python dict. -/
inductive IDSKey where
  | canK (id : Nat)
  | ethK (s : String)
deriving DecidableEq

/-- The mutable state of `EnhancedIDS`. -/
structure EnhancedIDS where
  window_ms : Int
  rate_threshold : Nat
  seen_hashes : List String
  timestamps : IDSKey → List Int
  replay_detected : Nat
  dos_detected : Nat
  injection_detected : Nat
  spoofing_detected : Nat
  total_checked : Nat
  total_detected_packets : Nat

/-- `EnhancedIDS.__init__(window_ms, rate_threshold)` (defaults 1000 and 100):
empty replay cache, empty rate windows, all counters zero. -/
def initIDS (window_ms : Int) (rate_threshold : Nat) : EnhancedIDS :=
  ⟨window_ms, rate_threshold, [], fun _ => [], 0, 0, 0, 0, 0, 0⟩

/-- The eviction loop `while dq and now - dq[0] > window_ms: dq.popleft()`. -/
def evictOld (wms now : Int) : List Int → List Int
  | [] => []
  | t :: rest => if wms < now - t then evictOld wms now rest else t :: rest

/-- Byte-sequence prefix test (executable). -/
def prefixOfBytes : List Nat → List Nat → Bool
  | [], _ => true
  | _ :: _, [] => false
  | a :: as, b :: bs => (a == b) && prefixOfBytes as bs

/-- Python `needle in haystack` on bytes: contiguous-substring containment. -/
def containsSub (needle : List Nat) : List Nat → Bool
  | [] => prefixOfBytes needle []
  | b :: rest => prefixOfBytes needle (b :: rest) || containsSub needle rest

/-- The verdict dict returned by `check_can`. -/
structure CANVerdict where
  replay : Bool
  dos_rate : Bool
  injection : Bool
  alerts : Bool
deriving DecidableEq

/-- The verdict dict returned by `check_eth`. -/
structure EthVerdict where
  replay : Bool
  dos_rate : Bool
  spoofing : Bool
  alerts : Bool
deriving DecidableEq

/-- `check_can(frame)`: replay lookup-and-insert on the fingerprint, rate-window
append/evict/compare for the frame's CAN id, injection heuristic `can_id > 0x700`,
counter updates; returns the verdict and the updated engine state. -/
def check_can (s : EnhancedIDS) (frame : CANFrame) : CANVerdict × EnhancedIDS :=
  let msg_hash := hash_message frame.data (Nat.repr frame.can_id)
  let replay := decide (msg_hash ∈ s.seen_hashes)
  let seen' := if msg_hash ∈ s.seen_hashes then s.seen_hashes else msg_hash :: s.seen_hashes
  let now := frame.ts_ms
  let dq := evictOld s.window_ms now (s.timestamps (IDSKey.canK frame.can_id) ++ [now])
  let dos_rate := decide (s.rate_threshold < dq.length)
  let injection := decide (0x700 < frame.can_id)
  let alerts := replay || dos_rate || injection
  (⟨replay, dos_rate, injection, alerts⟩,
   { s with
      seen_hashes := seen',
      timestamps := fun k => if k = IDSKey.canK frame.can_id then dq else s.timestamps k,
      replay_detected := s.replay_detected + if replay then 1 else 0,
      dos_detected := s.dos_detected + if dos_rate then 1 else 0,
      injection_detected := s.injection_detected + if injection then 1 else 0,
      total_checked := s.total_checked + 1,
      total_detected_packets := s.total_detected_packets + if alerts then 1 else 0 })

/-- `check_eth(pkt)`: replay lookup-and-insert keyed by source, rate window for
the source, spoofing heuristic (`src == "attacker"` or `b"SPOOF"` in payload),
counter updates; returns the verdict and the updated engine state. -/
def check_eth (s : EnhancedIDS) (pkt : EthernetPacket) : EthVerdict × EnhancedIDS :=
  let msg_hash := hash_message pkt.payload pkt.src
  let replay := decide (msg_hash ∈ s.seen_hashes)
  let seen' := if msg_hash ∈ s.seen_hashes then s.seen_hashes else msg_hash :: s.seen_hashes
  let now := pkt.ts_ms
  let dq := evictOld s.window_ms now (s.timestamps (IDSKey.ethK pkt.src) ++ [now])
  let dos_rate := decide (s.rate_threshold < dq.length)
  let spoofing := (pkt.src == "attacker") || containsSub (strBytes "SPOOF") pkt.payload
  let alerts := replay || dos_rate || spoofing
  (⟨replay, dos_rate, spoofing, alerts⟩,
   { s with
      seen_hashes := seen',
      timestamps := fun k => if k = IDSKey.ethK pkt.src then dq else s.timestamps k,
      replay_detected := s.replay_detected + if replay then 1 else 0,
      dos_detected := s.dos_detected + if dos_rate then 1 else 0,
      spoofing_detected := s.spoofing_detected + if spoofing then 1 else 0,
      total_checked := s.total_checked + 1,
      total_detected_packets := s.total_detected_packets + if alerts then 1 else 0 })

/-- The statistics dict returned by `EnhancedIDS.get_stats`; Python's float
division is modelled exactly in `ℚ`. -/
structure IDSStats where
  total_checked : Nat
  total_detected_packets : Nat
  replay_detected : Nat
  dos_detected : Nat
  injection_detected : Nat
  spoofing_detected : Nat
  detection_rate : ℚ
deriving DecidableEq

/-- `get_stats()`: counter snapshot with
`detection_rate = total_detected_packets / max(total_checked, 1)`. -/
def get_stats (s : EnhancedIDS) : IDSStats :=
  ⟨s.total_checked, s.total_detected_packets, s.replay_detected, s.dos_detected,
   s.injection_detected, s.spoofing_detected,
   (s.total_detected_packets : ℚ) / ((max s.total_checked 1 : Nat) : ℚ)⟩

/-- One IDS call: either a CAN frame or an Ethernet packet. -/
inductive IDSMsg where
  | canMsg (f : CANFrame)
  | ethMsg (p : EthernetPacket)

/-- State after one `check_can`/`check_eth` call. -/
def checkStep (s : EnhancedIDS) (m : IDSMsg) : EnhancedIDS :=
  match m with
  | .canMsg f => (check_can s f).2
  | .ethMsg p => (check_eth s p).2

/-- State after a sequence of IDS calls. -/
def runIDS (s : EnhancedIDS) (ms : List IDSMsg) : EnhancedIDS := ms.foldl checkStep s

/-- The verdicts of a sequence of `check_can` calls, in call order. -/
def canVerdicts : EnhancedIDS → List CANFrame → List CANVerdict
  | _, [] => []
  | s, f :: rest => (check_can s f).1 :: canVerdicts (check_can s f).2 rest

/-- The per-key rate-window update of one check: append the timestamp to the
key's deque, then front-evict entries older than the window. -/
def windowStep (wms : Int) (dq : List Int) (now : Int) : List Int :=
  evictOld wms now (dq ++ [now])

/-- One key's rate window after a sequence of timestamps. -/
def processKey (wms : Int) (dq : List Int) (ts : List Int) : List Int :=
  ts.foldl (windowStep wms) dq

/-- Engine state after a sequence of `check_can` calls. -/
def runCan (s : EnhancedIDS) (fs : List CANFrame) : EnhancedIDS :=
  fs.foldl (fun st f => (check_can st f).2) s

/-- The `rate_exceeded` flags one key's window produces over a timestamp
sequence, in check order. -/
def windowFlags (wms : Int) (thr : Nat) : List Int → List Int → List Bool
  | _, [] => []
  | dq, t :: rest =>
      decide (thr < (windowStep wms dq t).length) ::
        windowFlags wms thr (windowStep wms dq t) rest

/-! ## Helper lemmas -/

theorem compress_length (hs chunk : List Nat) : (compress hs chunk).length = 8 := by
  simp [compress]

theorem foldl_compress_length (cs : List (List Nat)) (hs : List Nat) (h : hs.length = 8) :
    (cs.foldl compress hs).length = 8 := by
  induction cs generalizing hs with
  | nil => simpa using h
  | cons c cs ih => simpa using ih _ (compress_length hs c)

theorem sha256_length (msg : List Nat) : (sha256 msg).length = 32 := by
  have h8 : ((chunks64 (padMsg msg)).foldl compress H256).length = 8 :=
    foldl_compress_length _ _ (by simp [H256])
  generalize hl : (chunks64 (padMsg msg)).foldl compress H256 = hs at h8
  simp only [sha256, hl]
  clear hl
  match hs, h8 with
  | [a, b, c, d, e, f, g, h], _ => simp [word32ToBytes]

theorem signWith_length (secret data : List Nat) : (signWith secret data).length = 8 := by
  simp [signWith, hmacSha256, sha256_length]

theorem sign_length (data : List Nat) : (sign data).length = 8 :=
  signWith_length _ _

theorem foldl_push {α : Type} (L q : List α) :
    L.foldl (fun acc x => acc ++ [x]) q = q ++ L := by
  induction L generalizing q with
  | nil => simp
  | cons a L ih => simp [ih]

theorem foldl_send_can (L : List CANFrame) (s : HighPerformanceCANBus) :
    L.foldl HighPerformanceCANBus.send s =
      ⟨s.q ++ L, s.messages_sent + L.length, s.messages_received⟩ := by
  induction L generalizing s with
  | nil => simp
  | cons f L ih => simp [ih, HighPerformanceCANBus.send]; omega

theorem foldl_send_eth (M : List EthernetPacket) (t : HighPerformanceEthernetBus) :
    M.foldl HighPerformanceEthernetBus.send t =
      ⟨t.q ++ M, t.packets_sent + M.length, t.packets_received⟩ := by
  induction M generalizing t with
  | nil => simp
  | cons p M ih => simp [ih, HighPerformanceEthernetBus.send]; omega

/-! ## Claim theorems -/

/-- C1: for every byte payload `m`, `strip_and_verify(attach_auth(m)) = (m, true)`:
attaching the 8-byte keyed tag and then stripping-and-verifying recovers the
original payload with the valid flag set. -/
theorem C1_auth_round_trip (m : List Nat) :
    strip_and_verify (attach_auth m) = (m, true) := by
  have hs := sign_length m
  have hlen : (attach_auth m).length = m.length + 8 := by
    simp [attach_auth, hs]
  have htake : (attach_auth m).take ((attach_auth m).length - 8) = m := by
    rw [hlen, Nat.add_sub_cancel, attach_auth]
    exact List.take_left m (sign m)
  have hdrop : (attach_auth m).drop ((attach_auth m).length - 8) = sign m := by
    rw [hlen, Nat.add_sub_cancel, attach_auth]
    exact List.drop_left m (sign m)
  rw [strip_and_verify]
  rw [if_neg (by omega)]
  rw [htake, hdrop]
  simp [verify]

/-- C9: `strip_and_verify` on a payload shorter than the 8-byte tag returns the
payload unchanged paired with `false`; in this embedding the function is total
(every outcome is a returned value, never an exception), so verification failure
is visible only through the boolean. -/
theorem C9_strip_short (p : List Nat) (h : p.length < 8) :
    strip_and_verify p = (p, false) := by
  simp [strip_and_verify, h]

/-- Witness for C9: the concrete 3-byte payload `[1, 2, 3]`. -/
theorem C9_strip_short_witness :
    ([1, 2, 3] : List Nat).length < 8 ∧ strip_and_verify [1, 2, 3] = ([1, 2, 3], false) :=
  ⟨by decide, C9_strip_short [1, 2, 3] (by decide)⟩

/-- C5 (amended): constructing the authentication layer never fails — a missing
`HMAC_SECRET` falls back to the hard-coded default `"gateway-secret-2025"` read
from the ambient environment at import time, and every environment value
(including a missing one) yields a signer producing 8-byte tags. -/
theorem C5_secret_total_fallback (env : Option String) (d : List Nat) :
    secretFromEnv env = strBytes (env.getD "gateway-secret-2025") ∧
    (signWith (secretFromEnv env) d).length = 8 :=
  ⟨rfl, signWith_length _ _⟩

/-- Counterexample for C5: with the secret missing from the environment the
module does not fail fast; it silently falls back to the ambient default and
signing still works. -/
theorem C5_no_failfast_counterexample :
    secretFromEnv none = strBytes "gateway-secret-2025" ∧
    (signWith (secretFromEnv none) []).length = 8 :=
  ⟨rfl, signWith_length _ _⟩

/-- C6: `send_batch` equals the fold of `send` over the batch, leaves the queue
extended by the batch in FIFO order, adds the batch size to the sent counter
once, and leaves the received counter unchanged — for both buses. -/
theorem C6_send_batch_equiv (s : HighPerformanceCANBus) (L : List CANFrame)
    (t : HighPerformanceEthernetBus) (M : List EthernetPacket) :
    s.send_batch L = L.foldl HighPerformanceCANBus.send s ∧
    (s.send_batch L).q = s.q ++ L ∧
    (s.send_batch L).messages_sent = s.messages_sent + L.length ∧
    (s.send_batch L).messages_received = s.messages_received ∧
    t.send_batch M = M.foldl HighPerformanceEthernetBus.send t ∧
    (t.send_batch M).q = t.q ++ M ∧
    (t.send_batch M).packets_sent = t.packets_sent + M.length ∧
    (t.send_batch M).packets_received = t.packets_received := by
  refine ⟨?_, ?_, rfl, rfl, ?_, ?_, rfl, rfl⟩
  · rw [foldl_send_can]
    simp [HighPerformanceCANBus.send_batch, foldl_push]
  · simp [HighPerformanceCANBus.send_batch, foldl_push]
  · rw [foldl_send_eth]
    simp [HighPerformanceEthernetBus.send_batch, foldl_push]
  · simp [HighPerformanceEthernetBus.send_batch, foldl_push]

/-- C7: `check_can` reports injection exactly when the arbitration id exceeds
0x700; concretely 0x701 triggers it and 0x100 does not. -/
theorem C7_injection_iff (s : EnhancedIDS) (f : CANFrame) :
    ((check_can s f).1.injection = true ↔ 0x700 < f.can_id) ∧
    (check_can (initIDS 1000 100) ⟨0, 0x701, 0, [], "node", ""⟩).1.injection = true ∧
    (check_can (initIDS 1000 100) ⟨0, 0x100, 0, [], "node", ""⟩).1.injection = false := by
  refine ⟨?_, rfl, rfl⟩
  simp [check_can]

/-- C4: `eth_to_can` sets `dlc = min(len(payload), 8)`, truncates the payload to
its first 8 bytes silently (no error path exists in the embedding), resolves the
arbitration id by reverse-table lookup with fallback 0x200, and every produced
frame satisfies the CAN invariant `data.length ≤ 8` and `data.length = dlc`. -/
theorem C4_eth_to_can_truncation (tr : ProtocolTranslator) (pkt : EthernetPacket)
    (now : Int) (fresh : String) :
    (eth_to_can tr pkt now fresh).dlc = min pkt.payload.length 8 ∧
    (eth_to_can tr pkt now fresh).data = pkt.payload.take 8 ∧
    (eth_to_can tr pkt now fresh).can_id = (tr.eth_to_can_map.lookup pkt.src).getD 0x200 ∧
    (eth_to_can tr pkt now fresh).data.length ≤ 8 ∧
    (eth_to_can tr pkt now fresh).data.length = (eth_to_can tr pkt now fresh).dlc := by
  refine ⟨rfl, rfl, rfl, ?_, ?_⟩
  · simp [eth_to_can]
  · simp [eth_to_can, Nat.min_comm]

/-- C8 (amended): `can_to_eth` uses the `dst` argument when given and non-empty;
Python's truthiness treats an empty-string `dst` as absent, falling through to
the table lookup with fallback `"192.168.0.99"`; the payload is carried
unchanged and `msg_id` is copied from the frame or minted if empty. The mapped
id 0x100 resolves to `"192.168.0.10"` and an unmapped id to the fallback. -/
theorem C8_can_to_eth_fields (tr : ProtocolTranslator) (frame : CANFrame) (d : String)
    (now : Int) (fresh : String) :
    (can_to_eth tr frame (some d) now fresh).dst =
      (if d = "" then (tr.can_to_eth_map.lookup frame.can_id).getD "192.168.0.99" else d) ∧
    (can_to_eth tr frame none now fresh).dst =
      (tr.can_to_eth_map.lookup frame.can_id).getD "192.168.0.99" ∧
    (can_to_eth tr frame (some d) now fresh).payload = frame.data ∧
    (can_to_eth tr frame none now fresh).payload = frame.data ∧
    (can_to_eth tr frame (some d) now fresh).msg_id =
      (if frame.msg_id = "" then fresh else frame.msg_id) ∧
    (can_to_eth defaultTranslator ⟨0, 0x100, 0, [], "node", "m"⟩ none now fresh).dst =
      "192.168.0.10" ∧
    (can_to_eth defaultTranslator ⟨0, 0x999, 0, [], "node", "m"⟩ none now fresh).dst =
      "192.168.0.99" :=
  ⟨rfl, rfl, rfl, rfl, rfl, rfl, rfl⟩

/-- C2: the first check of a fresh (payload, routing key) pair reports
`replay = false`, inserts the fingerprint into the shared seen set, and an
immediately following check of a message with identical payload and routing key
reports `replay = true` — for both `check_can` (key = CAN id) and `check_eth`
(key = source address). -/
theorem C2_replay_detection (s t : EnhancedIDS) (f f' : CANFrame) (p p' : EthernetPacket)
    (hf : hash_message f.data (Nat.repr f.can_id) ∉ s.seen_hashes)
    (hd : f'.data = f.data) (hid : f'.can_id = f.can_id)
    (hp : hash_message p.payload p.src ∉ t.seen_hashes)
    (hpd : p'.payload = p.payload) (hps : p'.src = p.src) :
    (check_can s f).1.replay = false ∧
    hash_message f.data (Nat.repr f.can_id) ∈ (check_can s f).2.seen_hashes ∧
    (check_can (check_can s f).2 f').1.replay = true ∧
    (check_eth t p).1.replay = false ∧
    hash_message p.payload p.src ∈ (check_eth t p).2.seen_hashes ∧
    (check_eth (check_eth t p).2 p').1.replay = true := by
  have hseen : (check_can s f).2.seen_hashes =
      hash_message f.data (Nat.repr f.can_id) :: s.seen_hashes := by
    simp [check_can, hf]
  have hseen' : (check_eth t p).2.seen_hashes =
      hash_message p.payload p.src :: t.seen_hashes := by
    simp [check_eth, hp]
  refine ⟨?_, ?_, ?_, ?_, ?_, ?_⟩
  · simp [check_can, hf]
  · rw [hseen]; exact List.mem_cons_self _ _
  · simp [check_can, hseen, hd, hid, hf]
  · simp [check_eth, hp]
  · rw [hseen']; exact List.mem_cons_self _ _
  · simp [check_eth, hseen', hpd, hps, hp]

/-- Witness for C2: a fresh engine, one concrete CAN frame and one concrete
Ethernet packet, each checked twice with identical payload and routing key. -/
theorem C2_replay_detection_witness :
    hash_message [7] (Nat.repr 1) ∉ (initIDS 1000 100).seen_hashes ∧
    hash_message [7] "n1" ∉ (initIDS 1000 100).seen_hashes ∧
    ((check_can (initIDS 1000 100) ⟨0, 1, 1, [7], "node", ""⟩).1.replay = false ∧
     hash_message [7] (Nat.repr 1) ∈
       (check_can (initIDS 1000 100) ⟨0, 1, 1, [7], "node", ""⟩).2.seen_hashes ∧
     (check_can (check_can (initIDS 1000 100) ⟨0, 1, 1, [7], "node", ""⟩).2
       ⟨1, 1, 1, [7], "node", ""⟩).1.replay = true ∧
     (check_eth (initIDS 1000 100) ⟨0, "n1", "d", [7], "", 0⟩).1.replay = false ∧
     hash_message [7] "n1" ∈
       (check_eth (initIDS 1000 100) ⟨0, "n1", "d", [7], "", 0⟩).2.seen_hashes ∧
     (check_eth (check_eth (initIDS 1000 100) ⟨0, "n1", "d", [7], "", 0⟩).2
       ⟨1, "n1", "d2", [7], "", 0⟩).1.replay = true) :=
  ⟨by simp [initIDS], by simp [initIDS],
   C2_replay_detection (initIDS 1000 100) (initIDS 1000 100)
     ⟨0, 1, 1, [7], "node", ""⟩ ⟨1, 1, 1, [7], "node", ""⟩
     ⟨0, "n1", "d", [7], "", 0⟩ ⟨1, "n1", "d2", [7], "", 0⟩
     (by simp [initIDS]) rfl rfl (by simp [initIDS]) rfl rfl⟩

theorem checkStep_checked (s : EnhancedIDS) (m : IDSMsg) :
    (checkStep s m).total_checked = s.total_checked + 1 := by
  cases m <;> rfl

theorem checkStep_detected_le (s : EnhancedIDS) (m : IDSMsg) :
    (checkStep s m).total_detected_packets ≤ s.total_detected_packets + 1 := by
  cases m with
  | canMsg f =>
    rw [show (checkStep s (IDSMsg.canMsg f)).total_detected_packets =
        s.total_detected_packets + (if (check_can s f).1.alerts then 1 else 0) from rfl]
    split <;> omega
  | ethMsg p =>
    rw [show (checkStep s (IDSMsg.ethMsg p)).total_detected_packets =
        s.total_detected_packets + (if (check_eth s p).1.alerts then 1 else 0) from rfl]
    split <;> omega

theorem runIDS_checked (ms : List IDSMsg) (s : EnhancedIDS) :
    (runIDS s ms).total_checked = s.total_checked + ms.length := by
  induction ms generalizing s with
  | nil => simp [runIDS]
  | cons m ms ih =>
    have hstep : runIDS s (m :: ms) = runIDS (checkStep s m) ms := rfl
    rw [hstep, ih, checkStep_checked]
    simp [List.length_cons]
    omega

theorem runIDS_detected_le (ms : List IDSMsg) (s : EnhancedIDS)
    (h : s.total_detected_packets ≤ s.total_checked) :
    (runIDS s ms).total_detected_packets ≤ (runIDS s ms).total_checked := by
  induction ms generalizing s with
  | nil => simpa [runIDS] using h
  | cons m ms ih =>
    have hstep : runIDS s (m :: ms) = runIDS (checkStep s m) ms := rfl
    rw [hstep]
    refine ih _ ?_
    have h1 := checkStep_detected_le s m
    rw [checkStep_checked]
    omega

/-- C10: on a fresh engine, after any sequence of `check_can`/`check_eth` calls
the counters satisfy: `total_checked` equals the number of calls,
`total_detected_packets` never exceeds `total_checked`, each call bumps
`total_checked` by one and `total_detected_packets` by exactly one when the
verdict has any flag set (zero otherwise), and `get_stats` always reports a
`detection_rate` between 0 and 1. -/
theorem C10_counter_invariants (wms : Int) (thr : Nat) (ms : List IDSMsg)
    (s : EnhancedIDS) (f : CANFrame) (p : EthernetPacket) :
    (runIDS (initIDS wms thr) ms).total_checked = ms.length ∧
    (runIDS (initIDS wms thr) ms).total_detected_packets ≤
      (runIDS (initIDS wms thr) ms).total_checked ∧
    (check_can s f).2.total_checked = s.total_checked + 1 ∧
    (check_can s f).2.total_detected_packets =
      s.total_detected_packets + (if (check_can s f).1.alerts then 1 else 0) ∧
    (check_eth s p).2.total_checked = s.total_checked + 1 ∧
    (check_eth s p).2.total_detected_packets =
      s.total_detected_packets + (if (check_eth s p).1.alerts then 1 else 0) ∧
    0 ≤ (get_stats (runIDS (initIDS wms thr) ms)).detection_rate ∧
    (get_stats (runIDS (initIDS wms thr) ms)).detection_rate ≤ 1 := by
  have h1 : (runIDS (initIDS wms thr) ms).total_checked = ms.length := by
    rw [runIDS_checked]; simp [initIDS]
  have h2 : (runIDS (initIDS wms thr) ms).total_detected_packets ≤
      (runIDS (initIDS wms thr) ms).total_checked :=
    runIDS_detected_le _ _ (by simp [initIDS])
  have hmaxpos :
      (0 : ℚ) < ((max (runIDS (initIDS wms thr) ms).total_checked 1 : Nat) : ℚ) := by
    exact_mod_cast Nat.lt_of_lt_of_le Nat.zero_lt_one (Nat.le_max_right _ 1)
  refine ⟨h1, h2, rfl, rfl, rfl, rfl, ?_, ?_⟩
  · exact div_nonneg (Nat.cast_nonneg _) (le_of_lt hmaxpos)
  · rw [get_stats, div_le_one hmaxpos]
    exact_mod_cast le_trans h2 (Nat.le_max_left _ 1)

/-- Counterexample for C8 as stated: passing the (given) destination `""` does
not make it the packet's destination — Python's `dst or lookup` falls through to
the mapped address, so the produced destination differs from the given `dst`. -/
theorem C8_empty_dst_counterexample :
    (can_to_eth defaultTranslator ⟨0, 0x100, 0, [], "node", "m1"⟩ (some "") 0 "f1").dst =
      "192.168.0.10" ∧
    ("192.168.0.10" : String) ≠ "" := by
  exact ⟨rfl, by decide⟩

theorem evictOld_sublist (wms now : Int) (dq : List Int) :
    (evictOld wms now dq).Sublist dq := by
  induction dq with
  | nil => simp [evictOld]
  | cons t rest ih =>
    rw [evictOld]
    split
    · exact ih.trans (List.sublist_cons_self t rest)
    · exact List.Sublist.refl _

theorem evictOld_of_all_in (wms now : Int) (dq : List Int)
    (h : ∀ x ∈ dq, now - x ≤ wms) : evictOld wms now dq = dq := by
  cases dq with
  | nil => rfl
  | cons t rest =>
    rw [evictOld, if_neg]
    have := h t (List.mem_cons_self t rest)
    omega

theorem evictOld_mem_window (wms now : Int) (dq : List Int)
    (hs : dq.Sorted (· ≤ ·)) : ∀ x ∈ evictOld wms now dq, now - x ≤ wms := by
  induction dq with
  | nil => simp [evictOld]
  | cons t rest ih =>
    rw [List.sorted_cons] at hs
    rw [evictOld]
    split
    · exact ih hs.2
    · rename_i hcond
      intro x hx
      rcases List.mem_cons.mp hx with h1 | h2
      · subst h1; omega
      · have := hs.1 x h2
        omega

theorem evictOld_sorted_eq_filter (wms now : Int) (dq : List Int)
    (hs : dq.Sorted (· ≤ ·)) :
    evictOld wms now dq = dq.filter (fun t => decide (now - t ≤ wms)) := by
  induction dq with
  | nil => rfl
  | cons t rest ih =>
    rw [List.sorted_cons] at hs
    rw [evictOld]
    split
    · rename_i hcond
      rw [ih hs.2, List.filter_cons_of_neg (by simpa using by omega)]
    · rename_i hcond
      rw [List.filter_cons_of_pos (by simpa using by omega)]
      congr 1
      symm
      apply List.filter_eq_self.mpr
      intro x hx
      have := hs.1 x hx
      simp only [decide_eq_true_eq]
      omega

theorem processKey_no_evict (wms : Int) (hw : 0 ≤ wms) :
    ∀ (ts dq : List Int), (∀ x ∈ dq ++ ts, ∀ y ∈ ts, y - x ≤ wms) →
      processKey wms dq ts = dq ++ ts := by
  intro ts
  induction ts with
  | nil =>
    intro dq _
    simp [processKey]
  | cons t rest ih =>
    intro dq h
    have hstep : windowStep wms dq t = dq ++ [t] := by
      apply evictOld_of_all_in
      intro x hx
      rcases List.mem_append.mp hx with h1 | h2
      · exact h x (List.mem_append_left _ h1) t (List.mem_cons_self _ _)
      · have hx' : x = t := by simpa using h2
        subst hx'
        omega
    have hcons : processKey wms dq (t :: rest) = processKey wms (windowStep wms dq t) rest := rfl
    rw [hcons, hstep, ih (dq ++ [t]) ?ha]
    · simp
    case ha =>
      intro x hx y hy
      refine h x ?_ y (List.mem_cons_of_mem _ hy)
      rcases List.mem_append.mp hx with h1 | h2
      · rcases List.mem_append.mp h1 with ha | hb
        · exact List.mem_append_left _ ha
        · have hx' : x = t := by simpa using hb
          subst hx'
          exact List.mem_append_right _ (List.mem_cons_self _ _)
      · exact List.mem_append_right _ (List.mem_cons_of_mem _ h2)

theorem tsf_map_sorted (t0 d : Int) (hd : 0 ≤ d) (n : Nat) :
    ((List.range n).map (fun (j : Nat) => t0 + (j : Int) * d)).Sorted (· ≤ ·) := by
  rw [List.Sorted, List.pairwise_map]
  refine List.Pairwise.imp ?_ (List.pairwise_lt_range n)
  intro a b hab
  have hab' : (a : Int) ≤ (b : Int) := by exact_mod_cast le_of_lt hab
  have := mul_le_mul_of_nonneg_right hab' hd
  linarith

theorem length_filter_range_le (n m : Nat) :
    ((List.range n).filter (fun j => decide (m ≤ j))).length ≤ n - m := by
  induction n with
  | zero => simp
  | succ n ih =>
    rw [List.range_succ, List.filter_append, List.length_append]
    by_cases h : m ≤ n
    · have : (List.filter (fun j => decide (m ≤ j)) [n]).length = 1 := by simp [h]
      omega
    · have : (List.filter (fun j => decide (m ≤ j)) [n]).length = 0 := by simp [h]
      omega

theorem length_filter_map_eq {α β : Type} (f : α → β) (p : β → Bool) (l : List α) :
    ((l.map f).filter p).length = (l.filter (fun j => p (f j))).length := by
  induction l with
  | nil => rfl
  | cons a l ih =>
    cases hp : p (f a) <;> simp [hp, ih]

theorem windowFlags_sparse_aux (wms : Int) (thr : Nat) (t0 d : Int)
    (hw : 0 ≤ wms) (hspan : wms < thr * d) :
    ∀ (n a : Nat) (dq : List Int),
      dq.Sublist ((List.range a).map (fun (j : Nat) => t0 + (j : Int) * d)) →
      ∀ b ∈ windowFlags wms thr dq ((List.range' a n).map (fun (j : Nat) => t0 + (j : Int) * d)),
        b = false := by
  have hd0 : 0 < d := by
    by_contra hle
    push_neg at hle
    have h1 : (thr : Int) * d ≤ 0 := mul_nonpos_of_nonneg_of_nonpos (by positivity) hle
    omega
  have hc0 : 0 ≤ wms / d := Int.ediv_nonneg hw (le_of_lt hd0)
  have hcthr : wms / d < thr := by
    rw [Int.ediv_lt_iff_lt_mul hd0]
    linarith
  intro n
  induction n with
  | zero =>
    intro a dq _ b hb
    simp [windowFlags] at hb
  | succ n ih =>
    intro a dq hsub b hb
    have hrange : List.range' a (n + 1) = a :: List.range' (a + 1) n := by
      rw [List.range'_succ]
    rw [hrange, List.map_cons, windowFlags] at hb
    -- the deque after this check
    set tsf : Nat → Int := fun (j : Nat) => t0 + (j : Int) * d with htsf
    have hbig : ((List.range (a + 1)).map tsf) =
        ((List.range a).map tsf) ++ [tsf a] := by
      rw [List.range_succ, List.map_append, List.map_cons, List.map_nil]
    have hsub1 : (dq ++ [tsf a]).Sublist ((List.range (a + 1)).map tsf) := by
      rw [hbig]
      exact hsub.append (List.Sublist.refl _)
    have hsorted_big : ((List.range (a + 1)).map tsf).Sorted (· ≤ ·) :=
      tsf_map_sorted t0 d (le_of_lt hd0) (a + 1)
    have hsorted1 : (dq ++ [tsf a]).Sorted (· ≤ ·) := hsorted_big.sublist hsub1
    have hwin : ∀ x ∈ windowStep wms dq (tsf a), tsf a - x ≤ wms :=
      evictOld_mem_window wms (tsf a) (dq ++ [tsf a]) hsorted1
    have hsub' : (windowStep wms dq (tsf a)).Sublist ((List.range (a + 1)).map tsf) :=
      (evictOld_sublist wms (tsf a) (dq ++ [tsf a])).trans hsub1
    -- the deque length never exceeds the threshold
    have hlen : (windowStep wms dq (tsf a)).length ≤ thr := by
      have hself : (windowStep wms dq (tsf a)).filter
          (fun x => decide (tsf a - x ≤ wms)) = windowStep wms dq (tsf a) :=
        List.filter_eq_self.mpr (fun x hx => by
          simp only [decide_eq_true_eq]
          exact hwin x hx)
      have hfsub : ((windowStep wms dq (tsf a)).filter
            (fun x => decide (tsf a - x ≤ wms))).Sublist
          (((List.range (a + 1)).map tsf).filter (fun x => decide (tsf a - x ≤ wms))) :=
        hsub'.filter _
      have hle1 : (windowStep wms dq (tsf a)).length ≤
          (((List.range (a + 1)).map tsf).filter
            (fun x => decide (tsf a - x ≤ wms))).length := by
        have := hfsub.length_le
        rwa [hself] at this
      have heq : (((List.range (a + 1)).map tsf).filter
            (fun x => decide (tsf a - x ≤ wms))).length =
          ((List.range (a + 1)).filter
            (fun j => decide (tsf a - tsf j ≤ wms))).length :=
        length_filter_map_eq tsf _ _
      have hpred : (fun j : Nat => decide (tsf a - tsf j ≤ wms)) =
          (fun j : Nat => decide (a - (wms / d).toNat ≤ j)) := by
        funext j
        rw [decide_eq_decide]
        have harith : tsf a - tsf j = ((a : Int) - (j : Int)) * d := by
          simp only [htsf]
          ring
        rw [harith, ← Int.le_ediv_iff_mul_le hd0]
        omega
      have hcount : ((List.range (a + 1)).filter
            (fun j => decide (a - (wms / d).toNat ≤ j))).length ≤
          (a + 1) - (a - (wms / d).toNat) :=
        length_filter_range_le (a + 1) (a - (wms / d).toNat)
      rw [heq, hpred] at hle1
      have hthr' : (wms / d).toNat + 1 ≤ thr := by omega
      omega
    rcases List.mem_cons.mp hb with hhead | htail
    · subst hhead
      simp only [decide_eq_false_iff_not]
      have hlen' : (windowStep wms dq (t0 + (a : Int) * d)).length ≤ thr := by
        simpa [htsf] using hlen
      omega
    · exact ih (a + 1) (windowStep wms dq (tsf a)) hsub' b htail

theorem check_can_timestamps_update (s : EnhancedIDS) (f : CANFrame) (k : IDSKey) :
    (check_can s f).2.timestamps k =
      if k = IDSKey.canK f.can_id
      then windowStep s.window_ms (s.timestamps (IDSKey.canK f.can_id)) f.ts_ms
      else s.timestamps k := rfl

theorem check_can_dos_formula (s : EnhancedIDS) (f : CANFrame) :
    (check_can s f).1.dos_rate =
      decide (s.rate_threshold <
        (windowStep s.window_ms (s.timestamps (IDSKey.canK f.can_id)) f.ts_ms).length) := rfl

theorem canVerdicts_dos_eq_windowFlags (k : Nat) (fs : List CANFrame) (s : EnhancedIDS)
    (hk : ∀ f ∈ fs, f.can_id = k) :
    (canVerdicts s fs).map (fun v => v.dos_rate) =
      windowFlags s.window_ms s.rate_threshold (s.timestamps (IDSKey.canK k))
        (fs.map (fun f => f.ts_ms)) := by
  induction fs generalizing s with
  | nil => rfl
  | cons f rest ih =>
    have hfk : f.can_id = k := hk f (List.mem_cons_self _ _)
    have h2 : (check_can s f).2.timestamps (IDSKey.canK k) =
        windowStep s.window_ms (s.timestamps (IDSKey.canK k)) f.ts_ms := by
      rw [check_can_timestamps_update, hfk, if_pos rfl]
    rw [canVerdicts, List.map_cons, List.map_cons, windowFlags]
    congr 1
    · rw [check_can_dos_formula, hfk]
    · rw [ih ((check_can s f).2) (fun g hg => hk g (List.mem_cons_of_mem _ hg)),
        show (check_can s f).2.window_ms = s.window_ms from rfl,
        show (check_can s f).2.rate_threshold = s.rate_threshold from rfl, h2]

theorem runCan_key_state (k : Nat) (fs : List CANFrame) (s : EnhancedIDS)
    (hk : ∀ f ∈ fs, f.can_id = k) :
    (runCan s fs).timestamps (IDSKey.canK k) =
      processKey s.window_ms (s.timestamps (IDSKey.canK k)) (fs.map (fun f => f.ts_ms)) ∧
    (runCan s fs).window_ms = s.window_ms ∧
    (runCan s fs).rate_threshold = s.rate_threshold := by
  induction fs generalizing s with
  | nil => exact ⟨rfl, rfl, rfl⟩
  | cons f rest ih =>
    have hfk : f.can_id = k := hk f (List.mem_cons_self _ _)
    have hrun : runCan s (f :: rest) = runCan ((check_can s f).2) rest := rfl
    have h2 : (check_can s f).2.timestamps (IDSKey.canK k) =
        windowStep s.window_ms (s.timestamps (IDSKey.canK k)) f.ts_ms := by
      rw [check_can_timestamps_update, hfk, if_pos rfl]
    obtain ⟨ht, hw', hr'⟩ := ih ((check_can s f).2) (fun g hg => hk g (List.mem_cons_of_mem _ hg))
    refine ⟨?_, ?_, ?_⟩
    · rw [hrun, ht, h2, show (check_can s f).2.window_ms = s.window_ms from rfl]
      rfl
    · rw [hrun, hw']
      rfl
    · rw [hrun, hr']
      rfl

/-- C3: for a single routing key `k` starting with a fresh window and checked
with non-decreasing timestamps: (i) checking `rate_threshold + 1` frames whose
timestamps all lie within `window_ms` of each other makes the final check
report `rate_exceeded = true`; (ii) checking the same count evenly spaced by
`d` over a span `rate_threshold * d` strictly longer than `window_ms` makes
every check report `rate_exceeded = false`; (iii) entries older than
`window_ms` relative to the newest timestamp are evicted from the front of the
key's deque (on a non-decreasing deque exactly the stale entries are removed),
and this happens before the length comparison that produces the flag. -/
theorem C3_rate_window (wms : Int) (thr : Nat) (k : Nat) (s : EnhancedIDS)
    (fs : List CANFrame) (flast : CANFrame) (gs : List CANFrame) (t0 d : Int)
    (dq : List Int) (now : Int)
    (hw : 0 ≤ wms) (hwms : s.window_ms = wms) (hthr : s.rate_threshold = thr)
    (hfresh : s.timestamps (IDSKey.canK k) = [])
    (hk : ∀ f ∈ fs ++ [flast], f.can_id = k)
    (hcount : (fs ++ [flast]).length = thr + 1)
    (hmono : ((fs ++ [flast]).map (fun f => f.ts_ms)).Sorted (· ≤ ·))
    (hpair : ∀ f ∈ fs ++ [flast], ∀ g ∈ fs ++ [flast], g.ts_ms - f.ts_ms ≤ wms)
    (hgk : ∀ g ∈ gs, g.can_id = k)
    (hgts : gs.map (fun g => g.ts_ms) =
      (List.range (thr + 1)).map (fun (j : Nat) => t0 + (j : Int) * d))
    (hspan : wms < thr * d)
    (hsorted : dq.Sorted (· ≤ ·)) :
    (check_can (runCan s fs) flast).1.dos_rate = true ∧
    (∀ v ∈ canVerdicts s gs, v.dos_rate = false) ∧
    evictOld wms now dq = dq.filter (fun t => decide (now - t ≤ wms)) ∧
    (check_can s flast).1.dos_rate =
      decide (s.rate_threshold <
        (evictOld s.window_ms flast.ts_ms
          (s.timestamps (IDSKey.canK flast.can_id) ++ [flast.ts_ms])).length) := by
  have hids : ∀ f ∈ fs, f.can_id = k := fun f hf => hk f (List.mem_append_left _ hf)
  have hlk : flast.can_id = k :=
    hk flast (List.mem_append_right _ (List.mem_cons_self _ _))
  have hlmem : flast ∈ fs ++ [flast] :=
    List.mem_append_right _ (List.mem_cons_self _ _)
  refine ⟨?_, ?_, evictOld_sorted_eq_filter wms now dq hsorted, rfl⟩
  · -- dense: no eviction ever happens, so the final window has thr + 1 entries
    obtain ⟨ht, hwz, hrz⟩ := runCan_key_state k fs s hids
    have hdense : processKey wms (s.timestamps (IDSKey.canK k))
        (fs.map (fun f => f.ts_ms)) = fs.map (fun f => f.ts_ms) := by
      rw [hfresh]
      have := processKey_no_evict wms hw (fs.map (fun f => f.ts_ms)) [] ?hall
      · simpa using this
      case hall =>
        intro x hx y hy
        simp only [List.nil_append] at hx
        obtain ⟨fx, hfx, rfl⟩ := List.mem_map.mp hx
        obtain ⟨fy, hfy, rfl⟩ := List.mem_map.mp hy
        exact hpair fx (List.mem_append_left _ hfx) fy (List.mem_append_left _ hfy)
    rw [check_can_dos_formula, hlk, ht, hwz, hrz, hwms, hthr, hdense]
    have hstep : windowStep wms (fs.map (fun f => f.ts_ms)) flast.ts_ms =
        fs.map (fun f => f.ts_ms) ++ [flast.ts_ms] := by
      apply evictOld_of_all_in
      intro x hx
      rcases List.mem_append.mp hx with h1 | h2
      · obtain ⟨g, hg, rfl⟩ := List.mem_map.mp h1
        exact hpair g (List.mem_append_left _ hg) flast hlmem
      · have hx' : x = flast.ts_ms := by simpa using h2
        subst hx'
        omega
    rw [hstep]
    have hlen : fs.length = thr := by
      simp only [List.length_append, List.length_singleton] at hcount
      omega
    simp [hlen]
  · -- sparse: the window never exceeds the threshold
    intro v hv
    have hdos : v.dos_rate ∈ (canVerdicts s gs).map (fun v => v.dos_rate) :=
      List.mem_map_of_mem _ hv
    rw [canVerdicts_dos_eq_windowFlags k gs s hgk, hwms, hthr, hfresh, hgts,
      List.range_eq_range'] at hdos
    exact windowFlags_sparse_aux wms thr t0 d hw hspan (thr + 1) 0 []
      (by simp) v.dos_rate hdos

/-- Witness for C3: window 10 ms, threshold 2, key 5; three dense frames at
0, 1, 2 ms; three sparse frames at 0, 6, 12 ms (spacing 6, span 12 > 10); a
concrete sorted deque [1, 2] evicted at time 3. -/
theorem C3_rate_window_witness :
    (check_can (runCan (initIDS 10 2)
        [⟨0, 5, 0, [], "node", ""⟩, ⟨1, 5, 0, [1], "node", ""⟩])
        ⟨2, 5, 0, [2], "node", ""⟩).1.dos_rate = true ∧
    (∀ v ∈ canVerdicts (initIDS 10 2)
        [⟨0, 5, 0, [], "node", ""⟩, ⟨6, 5, 0, [1], "node", ""⟩, ⟨12, 5, 0, [2], "node", ""⟩],
      v.dos_rate = false) ∧
    evictOld 10 3 [1, 2] = [1, 2].filter (fun t => decide ((3 : Int) - t ≤ 10)) ∧
    (check_can (initIDS 10 2) ⟨2, 5, 0, [2], "node", ""⟩).1.dos_rate =
      decide ((initIDS 10 2).rate_threshold <
        (evictOld (initIDS 10 2).window_ms (2 : Int)
          ((initIDS 10 2).timestamps (IDSKey.canK 5) ++ [(2 : Int)])).length) :=
  C3_rate_window 10 2 5 (initIDS 10 2)
    [⟨0, 5, 0, [], "node", ""⟩, ⟨1, 5, 0, [1], "node", ""⟩] ⟨2, 5, 0, [2], "node", ""⟩
    [⟨0, 5, 0, [], "node", ""⟩, ⟨6, 5, 0, [1], "node", ""⟩, ⟨12, 5, 0, [2], "node", ""⟩]
    0 6 [1, 2] 3
    (by decide) rfl rfl rfl (by decide) (by decide) (by decide) (by decide)
    (by decide) (by decide) (by decide) (by decide)

end Gateway
